import Mathlib

/-!
Shallow embedding of `adaptive/runner.py`.

The module under study is a small scheduler: `BaseRunner.__init__` resolves
an executor, a task count `ntasks` and a shutdown flag; `BlockingRunner._run`
and `AsyncRunner._run` drive the same scheduling loop (request points from
the learner, submit them, wait for the first completed futures, absorb
results, and on every exit path run the `finally` teardown);
`replay_log` re-applies a captured call log to a learner; and
`SequentialExecutor` is the trivial synchronous executor.

External collaborators (the learner, the evaluated function, the wait
primitive's choice of which futures complete) are modelled as explicit
parameters: the learner as a record of state-passing operations, the
evaluated function as `Point → Except ε Value`, and the completion order
as a schedule `Nat → List Nat` giving the future ids deemed complete at
each wait.  Exceptions are values: a worker exception is the `Except.error`
of the evaluated function; the `finally` block is the explicit `drain`
applied on every path that leaves the `try` body.
-/

namespace Adaptive

/-- Inputs handed to the evaluated function (opaque to the scheduler). -/
abbrev Point := Int

/-- Outputs of the evaluated function (opaque to the scheduler). -/
abbrev Value := Int

/-- The learner interface the loop consumes: `choose_points(n)` returning a
list of points (the metadata component of the Python pair is discarded by
the loop, so it is not modelled), `add_point(x, y)` and
`remove_unfinished()`, in state-passing style over a learner state `σ`. -/
structure LearnerOps (σ : Type) where
  choose_points : σ → Nat → List Point × σ
  add_point : σ → Point → Value → σ
  remove_unfinished : σ → σ

/-- An entry of `self.log`: the Python tuples `('choose_points', n)`,
`('add_point', x, y)` and `('remove_unfinished',)` that `replay_log`
dispatches on. -/
inductive LogEntry
  | choose_points (n : Nat)
  | add_point (x : Point) (y : Value)
  | remove_unfinished
deriving Repr, DecidableEq

/-- How `_submit` dispatches work: `viaExecutor` is
`executor.submit(...)` / `ioloop.run_in_executor(...)`; `directOnLoop` is
`ioloop.create_task(learner.function(x))`, used by `AsyncRunner` when the
learned function is a coroutine function. -/
inductive SubmitMode
  | viaExecutor
  | directOnLoop
deriving Repr, DecidableEq

/-- Ghost trace of the observable actions of a run.  `choosePointsCall`
records the requested count `len(done)` together with the size of the
outstanding map `xs` at the moment of the call. -/
inductive Event
  | choosePointsCall (requested : Nat) (outstanding : Nat)
  | submitTask (mode : SubmitMode) (id : Nat) (x : Point)
  | addPointCall (x : Point) (y : Value)
  | removeUnfinishedCall
  | cancelFuture (id : Nat)
  | awaitRemaining (n : Nat)
  | shutdownCall
deriving Repr, DecidableEq

/-- The mutable state of one `_run` invocation: the learner, the
outstanding-work dict `xs` (future id, insertion ordered), the optional
call log, the fresh-future counter, `len(done)` from the last wait
(initially `ntasks`, from `done = [None] * self.ntasks`), and the ghost
event trace. -/
structure RunState (σ : Type) where
  learner : σ
  xs : List (Nat × Point)
  log : Option (List LogEntry)
  nextId : Nat
  lastDone : Nat
  events : List Event
deriving Repr, DecidableEq

variable {σ : Type} {ε : Type}

/-- The guarded `self.log.append(...)`: appends only when logging is on. -/
def logAppend (st : RunState σ) (e : LogEntry) : RunState σ :=
  match st.log with
  | none => st
  | some l => { st with log := some (l ++ [e]) }

/-- Record a ghost event. -/
def emit (st : RunState σ) (e : Event) : RunState σ :=
  { st with events := st.events ++ [e] }

/-- The submission of the chosen points:
`for x in points: xs[self._submit(x)] = x`, each submission drawing a
fresh future id. -/
def submitPoints (mode : SubmitMode) : List Point → RunState σ → RunState σ
  | [], st => st
  | x :: rest, st =>
    let st := emit st (.submitTask mode st.nextId x)
    let st := { st with xs := st.xs ++ [(st.nextId, x)], nextId := st.nextId + 1 }
    submitPoints mode rest st

/-- Processing of the completed futures:
`for fut in done: x = xs.pop(fut); y = fut.result(); ...`.  The completed
futures were already split off `xs`; on a worker exception the futures of
`done` not yet processed are put back among the outstanding ones (their
`pop` never ran), the failed one stays removed. -/
def processDone (E : LearnerOps σ) (f : Point → Except ε Value) :
    List (Nat × Point) → RunState σ → Except (ε × Point × RunState σ) (RunState σ)
  | [], st => .ok st
  | (_, x) :: rest, st =>
    match f x with
    | .error e => .error (e, x, { st with xs := st.xs ++ rest })
    | .ok y =>
      let st := logAppend st (.add_point x y)
      let st := emit st (.addPointCall x y)
      let st := { st with learner := E.add_point st.learner x y }
      processDone E f rest st

/-- How the loop left the `try` body. -/
inductive LoopExit (ε : Type)
  | goalReached
  | workerRaised (e : ε) (x : Point)
  | cancelledAtWait
  | emptyWaitValueError
  | fuelExhausted
  | blockedForever
deriving Repr, DecidableEq

/-- Per-strategy parameters of the loop body: whether the wait primitive is
`asyncio.wait` (which rejects an empty future set with a `ValueError` and at
which a pending external cancellation is delivered) or `concurrent.wait`
(which returns immediately on an empty set), at which wait index an external
cancellation arrives (`none` for the blocking strategy, which has no
cancellation handle), and how `_submit` dispatches. -/
structure LoopCfg where
  asyncMode : Bool
  cancelAt : Option Nat
  submitMode : SubmitMode
deriving Repr, DecidableEq

/-- The head of one loop iteration:
`if do_log: log.append(('choose_points', len(done)))`, then
`points, _ = learner.choose_points(len(done))`, then
`for x in points: xs[self._submit(x)] = x`. -/
def chooseAndSubmit (E : LearnerOps σ) (L : LoopCfg) (st : RunState σ) : RunState σ :=
  let st := logAppend st (.choose_points st.lastDone)
  let st := emit st (.choosePointsCall st.lastDone st.xs.length)
  let res := E.choose_points st.learner st.lastDone
  let st := { st with learner := res.2 }
  submitPoints L.submitMode res.1 st

/-- The body of the `try` in `BlockingRunner._run` / `AsyncRunner._run`:
`while not goal: log choose_points; choose_points(len(done)); submit;
wait(first_completed); absorb results`.  `fuel` bounds the number of
iterations modelled; running out of fuel means the loop was still running.
`widx` counts the waits performed, indexing the completion schedule and the
cancellation point. -/
def runLoop (E : LearnerOps σ) (goal : σ → Bool) (f : Point → Except ε Value)
    (sched : Nat → List Nat) (L : LoopCfg) :
    Nat → Nat → RunState σ → LoopExit ε × RunState σ
  | 0, _, st => (.fuelExhausted, st)
  | fuel + 1, widx, st =>
    if goal st.learner then (.goalReached, st)
    else
      let st := chooseAndSubmit E L st
      if L.cancelAt = some widx then (.cancelledAtWait, st)
      else if st.xs.length = 0 then
        if L.asyncMode then (.emptyWaitValueError, st)
        else runLoop E goal f sched L fuel (widx + 1) { st with lastDone := 0 }
      else
        let done := st.xs.filter (fun p => decide (p.1 ∈ sched widx))
        let rest := st.xs.filter (fun p => !decide (p.1 ∈ sched widx))
        if done.length = 0 then (.blockedForever, st)
        else
          match processDone E f done { st with xs := rest } with
          | .error (e, x, st) => (.workerRaised e x, st)
          | .ok st => runLoop E goal f sched L fuel (widx + 1) { st with lastDone := done.length }

/-- The `finally` block: `learner.remove_unfinished()`; cancel every
outstanding future and wait for the cancellations; shut down the executor
when `self.shutdown_executor` is set.  None of this is logged. -/
def drain (E : LearnerOps σ) (shutdownExec : Bool) (st : RunState σ) : RunState σ :=
  let st := emit st .removeUnfinishedCall
  let st := { st with learner := E.remove_unfinished st.learner }
  let st :=
    if st.xs.length = 0 then st
    else
      let st := { st with events := st.events ++ st.xs.map (fun p => Event.cancelFuture p.1) }
      emit st (.awaitRemaining st.xs.length)
  if shutdownExec then emit st .shutdownCall else st

/-- The exact event suffix the `finally` block produces when entered with
outstanding future ids `ids`. -/
def drainTrace (ids : List Nat) (shutdownExec : Bool) : List Event :=
  [.removeUnfinishedCall]
    ++ (if ids.length = 0 then [] else ids.map Event.cancelFuture ++ [.awaitRemaining ids.length])
    ++ (if shutdownExec then [.shutdownCall] else [])

/-- Outcome of a whole `_run` call. -/
inductive Outcome (ε : Type)
  | goalReached
  | workerFailure (e : ε) (x : Point)
  | cancelled
  | emptyWaitValueError
  | noWorkersError
  | fuelExhausted
  | blockedForever
deriving Repr, DecidableEq

/-- The outcomes on which control actually left the `try` body (and hence
the `finally` ran): everything except "the loop is still running"
(`fuelExhausted`, `blockedForever`) and the pre-`try`
`RuntimeError('Executor has no workers')`. -/
def Outcome.exitsLoop : Outcome ε → Bool
  | .goalReached => true
  | .workerFailure _ _ => true
  | .cancelled => true
  | .emptyWaitValueError => true
  | _ => false

/-- Constructor-time configuration of `BaseRunner.__init__`: the `ntasks`
argument (`none` for the default), the capacity `_get_ncores` would report
for the resolved executor, the `log` flag, the `shutdown_executor` flag and
whether the caller supplied an executor. -/
structure RunnerCfg where
  ntasksArg : Option Nat
  capacity : Nat
  logEnabled : Bool
  shutdown_executor : Bool
  executorProvided : Bool
deriving Repr, DecidableEq

/-- Python `self.ntasks = ntasks or _get_ncores(self.executor)`: the `or`
treats `0` (and `None`) as absent, so an explicit `0` falls back to the
executor capacity. -/
def resolvedNtasks (c : RunnerCfg) : Nat :=
  match c.ntasksArg with
  | none => c.capacity
  | some n => if n = 0 then c.capacity else n

/-- Python `self.shutdown_executor = shutdown_executor or (executor is None)`. -/
def shutdownOnExit (c : RunnerCfg) : Bool :=
  c.shutdown_executor || !c.executorProvided

/-- The state `_run` starts from: empty outstanding dict, empty log when
logging is enabled, `done = [None] * self.ntasks`. -/
def initState (c : RunnerCfg) (s0 : σ) : RunState σ :=
  { learner := s0
    xs := []
    log := if c.logEnabled then some [] else none
    nextId := 0
    lastDone := resolvedNtasks c
    events := [] }

/-- A whole `_run` invocation: the `RuntimeError('Executor has no workers')`
guard (raised before the `try`, so without teardown), then the `try` body,
then — on every path that left the body — the `finally` teardown, after
which the body's outcome (result, worker exception, cancellation or wait
error) reaches the caller. -/
def runnerRun (c : RunnerCfg) (E : LearnerOps σ) (goal : σ → Bool)
    (f : Point → Except ε Value) (sched : Nat → List Nat) (L : LoopCfg)
    (fuel : Nat) (s0 : σ) : Outcome ε × RunState σ :=
  let st := initState c s0
  if resolvedNtasks c = 0 then (.noWorkersError, st)
  else
    match runLoop E goal f sched L fuel 0 st with
    | (.fuelExhausted, st) => (.fuelExhausted, st)
    | (.blockedForever, st) => (.blockedForever, st)
    | (.goalReached, st) => (.goalReached, drain E (shutdownOnExit c) st)
    | (.workerRaised e x, st) => (.workerFailure e x, drain E (shutdownOnExit c) st)
    | (.cancelledAtWait, st) => (.cancelled, drain E (shutdownOnExit c) st)
    | (.emptyWaitValueError, st) => (.emptyWaitValueError, drain E (shutdownOnExit c) st)

/-- The loop parameters of `BlockingRunner._run`: a `concurrent.wait` that
returns immediately on an empty set, no cancellation handle, submission via
the executor. -/
def blockingLoopCfg : LoopCfg :=
  { asyncMode := false, cancelAt := none, submitMode := .viaExecutor }

/-- The loop parameters of `AsyncRunner._run`: `asyncio.wait`, an optional
external cancellation delivered at a wait, and a submission mode decided at
construction. -/
def asyncLoopCfg (cancelAt : Option Nat) (mode : SubmitMode) : LoopCfg :=
  { asyncMode := true, cancelAt := cancelAt, submitMode := mode }

/-- Errors raised by the runner constructors. -/
inductive RunnerError
  | coroutineNeedsAsyncRunner
  | conflictingExecutionMode
deriving Repr, DecidableEq

/-- Constructor-time side effects of `BaseRunner.__init__` and
`AsyncRunner.__init__`. -/
inductive InitEvent
  | createProcessPool
  | queryCapacity
  | constructionShutdown
deriving Repr, DecidableEq

/-- The `_ensure_executor` resolution: `None` means a fresh `ProcessPoolExecutor` is
created. -/
def ensureExecutorEvents (executorProvided : Bool) : List InitEvent :=
  if executorProvided then [] else [.createProcessPool]

/-- Side effects of `BaseRunner.__init__`: resolve the executor and, when
`ntasks` is absent or `0`, query the executor's capacity. -/
def baseInitEvents (c : RunnerCfg) : List InitEvent :=
  ensureExecutorEvents c.executorProvided ++
    (match c.ntasksArg with
     | none => [.queryCapacity]
     | some n => if n = 0 then [.queryCapacity] else [])

/-- Constructor `BlockingRunner.__init__`: the `ValueError` guard against coroutine
functions fires before `super().__init__` (so before any executor
resolution or capacity query) and before `self._run()`. -/
def blockingRunnerNew (isCoroutineFn : Bool) (c : RunnerCfg) (E : LearnerOps σ)
    (goal : σ → Bool) (f : Point → Except ε Value) (sched : Nat → List Nat)
    (fuel : Nat) (s0 : σ) :
    Except RunnerError (Outcome ε × RunState σ) × List InitEvent :=
  if isCoroutineFn then (.error .coroutineNeedsAsyncRunner, [])
  else (.ok (runnerRun c E goal f sched blockingLoopCfg fuel s0), baseInitEvents c)

/-- The submission-mode decision of `AsyncRunner.__init__`: a coroutine
learned function together with a caller-supplied executor is a
`RuntimeError`; a coroutine function alone makes `_submit` schedule
directly on the event loop and shuts the (internally created) executor
down at construction; otherwise `_submit` goes through the executor. -/
def asyncSubmitSetup (isCoroutineFn : Bool) (executorProvided : Bool) :
    Except RunnerError (SubmitMode × List InitEvent) :=
  if isCoroutineFn then
    if executorProvided then .error .conflictingExecutionMode
    else .ok (.directOnLoop, [.constructionShutdown])
  else .ok (.viaExecutor, [])

/-- Dispatch of `replay_log`: `getattr(learner, method)(*args)` for the three
logged learner methods (the value `choose_points` returns is discarded). -/
def applyLogEntry (E : LearnerOps σ) (s : σ) : LogEntry → σ
  | .choose_points n => (E.choose_points s n).2
  | .add_point x y => E.add_point s x y
  | .remove_unfinished => E.remove_unfinished s

/-- Replay `replay_log(learner, log)`: apply the logged method calls in order. -/
def replay_log (E : LearnerOps σ) (s : σ) (log : List LogEntry) : σ :=
  List.foldl (applyLogEntry E) s log

/-- The log entry a ghost event corresponds to, when the loop logs it:
`choose_points` and `add_point` invocations are logged, nothing else is. -/
def eventLogEntry : Event → Option LogEntry
  | .choosePointsCall r _ => some (.choose_points r)
  | .addPointCall x y => some (.add_point x y)
  | _ => none

/-- The log a trace of events gives rise to. -/
def logOfEvents (es : List Event) : List LogEntry :=
  es.filterMap eventLogEntry

/-- A `concurrent.futures.Future` as `SequentialExecutor.submit` builds it:
fresh (`pending`), then `set_result` / `set_exception`. -/
inductive SeqFuture (ε β : Type)
  | pending
  | resolvedOk (y : β)
  | resolvedErr (e : ε)
deriving Repr, DecidableEq

/-- Whether the future already holds its outcome. -/
def SeqFuture.isResolved : SeqFuture ε β → Bool
  | .pending => false
  | .resolvedOk _ => true
  | .resolvedErr _ => true

/-- The `Future.result()` observation without blocking: the stored value or
exception, `none` while pending. -/
def SeqFuture.resultNow : SeqFuture ε β → Option (Except ε β)
  | .pending => none
  | .resolvedOk y => some (.ok y)
  | .resolvedErr e => some (.error e)

/-- Setter `Future.set_result`. -/
def SeqFuture.set_result (_ : SeqFuture ε β) (y : β) : SeqFuture ε β :=
  .resolvedOk y

/-- Setter `Future.set_exception`. -/
def SeqFuture.set_exception (_ : SeqFuture ε β) (e : ε) : SeqFuture ε β :=
  .resolvedErr e

namespace SequentialExecutor

/-- Submission in `SequentialExecutor`: make a fresh future, run the function on
the calling thread, store its result, or capture the exception it raised;
`submit` itself raises nothing. -/
def submit {α β : Type} (f : α → Except ε β) (x : α) : SeqFuture ε β :=
  let fut : SeqFuture ε β := .pending
  match f x with
  | .ok y => fut.set_result y
  | .error e => fut.set_exception e

/-- Shutdown of `SequentialExecutor`: `pass` — the executor's observable
state is untouched, whatever it is. -/
def shutdown {α : Type} (_wait : Bool) (s : α) : α :=
  s

end SequentialExecutor

/-- The executor kinds `_get_ncores` distinguishes, each carrying the
datum the source reads off it. -/
inductive ExecutorKind
  | ipyparallelViewExecutor (viewLen : Nat)
  | processPoolExecutor (maxWorkers : Nat)
  | threadPoolExecutor (maxWorkers : Nat)
  | sequentialExecutor
  | distributedClientExecutor (ncores : Nat)
  | unrecognized
deriving Repr, DecidableEq

/-- Capacity query `_get_ncores`: the maximum number of cores an executor can use;
`none` models the `TypeError` raised for unrecognized executors. -/
def _get_ncores : ExecutorKind → Option Nat
  | .ipyparallelViewExecutor n => some n
  | .processPoolExecutor n => some n
  | .threadPoolExecutor n => some n
  | .sequentialExecutor => some 1
  | .distributedClientExecutor n => some n
  | .unrecognized => none

/-- The events the loop body itself can produce (as opposed to the
`finally` teardown). -/
def Event.isLoopEvent : Event → Bool
  | .choosePointsCall _ _ => true
  | .submitTask _ _ _ => true
  | .addPointCall _ _ => true
  | _ => false

/-- Soundness of an event produced by the loop body under parameters `L`
and evaluated function `f`: it is one of the three loop event kinds, an
absorbed result really is the function's successful output at that input,
and a submission went through the configured submission route. -/
def GoodLoopEvent (L : LoopCfg) (f : Point → Except ε Value) (e : Event) : Prop :=
  e.isLoopEvent = true
  ∧ (∀ x y, e = Event.addPointCall x y → f x = Except.ok y)
  ∧ (∀ md id x, e = Event.submitTask md id x → md = L.submitMode)

section ConcreteRuns

/-- A schedule under which every outstanding future with a small id counts
as completed at every wait. -/
def schedAll : Nat → List Nat := fun _ => [0, 1, 2, 3, 4, 5, 6, 7]

/-- An evaluated function that succeeds on every input, returning it. -/
def fId : Point → Except Unit Value := fun x => .ok x

/-- An evaluated function that raises on input `0` and succeeds
elsewhere. -/
def fFailZero : Point → Except Unit Value :=
  fun x => if x = 0 then .error () else .ok x

/-- A learner (state: a `Nat` step counter) that supplies exactly as many
points as requested. -/
def EFull : LearnerOps Nat :=
  { choose_points := fun s n => (List.replicate n (Int.ofNat s), s + 1)
    add_point := fun s _ _ => s + 1
    remove_unfinished := fun s => s }

/-- A learner that always supplies exactly one point however many were
requested. -/
def EOne : LearnerOps Nat :=
  { choose_points := fun s _ => ([Int.ofNat s], s + 1)
    add_point := fun s _ _ => s + 1
    remove_unfinished := fun s => s }

/-- A learner that always supplies two points, the first of which is `0`. -/
def ETwo : LearnerOps Nat :=
  { choose_points := fun s _ => ([0, Int.ofNat s + 1], s + 1)
    add_point := fun s _ _ => s + 1
    remove_unfinished := fun s => s }

/-- A learner that never supplies any point. -/
def ENone : LearnerOps Unit :=
  { choose_points := fun s _ => ([], s)
    add_point := fun s _ _ => s
    remove_unfinished := fun s => s }

/-- A learner whose `remove_unfinished` visibly changes the state. -/
def EMark : LearnerOps Nat :=
  { choose_points := fun s _ => ([], s)
    add_point := fun s _ _ => s
    remove_unfinished := fun s => s + 100 }

/-- Runner configuration: `ntasks=2`, logging on, caller-supplied executor,
shutdown requested. -/
def cfgLog2 : RunnerCfg :=
  { ntasksArg := some 2, capacity := 2, logEnabled := true,
    shutdown_executor := true, executorProvided := true }

/-- Runner configuration with an explicit `ntasks=0` and an executor of
capacity `1`. -/
def cfgZero : RunnerCfg :=
  { ntasksArg := some 0, capacity := 1, logEnabled := false,
    shutdown_executor := true, executorProvided := true }

/-- Runner configuration with no `ntasks` argument and an executor whose
capacity is `0`. -/
def cfgCap0 : RunnerCfg :=
  { ntasksArg := none, capacity := 0, logEnabled := false,
    shutdown_executor := true, executorProvided := true }

/-- Runner configuration: `ntasks=1`, logging off, caller-supplied
executor. -/
def cfgOne : RunnerCfg :=
  { ntasksArg := some 1, capacity := 1, logEnabled := false,
    shutdown_executor := true, executorProvided := true }

/-- Runner configuration: internally created executor,
`shutdown_executor=False`. -/
def cfgInternal : RunnerCfg :=
  { ntasksArg := some 1, capacity := 1, logEnabled := false,
    shutdown_executor := false, executorProvided := false }

/-- A goal predicate satisfied once the counter reaches `3`. -/
def goalAt3 : Nat → Bool := fun s => decide (3 ≤ s)

/-- The never-satisfied goal. -/
def goalNever {τ : Type} : τ → Bool := fun _ => false

/-- The immediately-satisfied goal. -/
def goalNow {τ : Type} : τ → Bool := fun _ => true

/-- The statement "this blocking run never leaves the scheduling loop, for
any iteration bound": the modelled loop neither terminates nor raises,
whatever fuel it is given. -/
def neverExitsBlocking (c : RunnerCfg) (E : LearnerOps σ) (goal : σ → Bool)
    (f : Point → Except ε Value) (sched : Nat → List Nat) (s0 : σ) : Prop :=
  ∀ fuel : Nat, (runnerRun c E goal f sched blockingLoopCfg fuel s0).1 = Outcome.fuelExhausted

/-- A schedule under which only future `0` ever completes. -/
def schedZeroOnly : Nat → List Nat := fun _ => [0]

/-- A concrete logged blocking run that reaches its goal. -/
def w1run : Outcome Unit × RunState Nat :=
  runnerRun cfgLog2 EFull goalAt3 fId schedAll blockingLoopCfg 10 0

/-- A concrete blocking run whose first completed future raises. -/
def w2run : Outcome Unit × RunState Nat :=
  runnerRun cfgLog2 ETwo goalAt3 fFailZero schedZeroOnly blockingLoopCfg 10 0

/-- A concrete blocking run in which the learner under-supplies points. -/
def c3run : Outcome Unit × RunState Nat :=
  runnerRun cfgLog2 EOne goalAt3 fId schedAll blockingLoopCfg 10 0

/-- A concrete run constructed with an explicit `ntasks=0` argument. -/
def c4run : Outcome Unit × RunState Nat :=
  runnerRun cfgZero EFull goalNow fId schedAll blockingLoopCfg 3 0

/-- A concrete run whose executor capacity resolves to `0` workers. -/
def w4run : Outcome Unit × RunState Nat :=
  runnerRun cfgCap0 EFull goalNow fId schedAll blockingLoopCfg 3 0

/-- A concrete logged run whose teardown visibly mutates the learner. -/
def c6run : Outcome Unit × RunState Nat :=
  runnerRun cfgLog2 EMark goalNow fId schedAll blockingLoopCfg 3 0

/-- A concrete run on an internally created executor with
`shutdown_executor=False`. -/
def w7run : Outcome Unit × RunState Nat :=
  runnerRun cfgInternal EFull goalNow fId schedAll blockingLoopCfg 3 0

end ConcreteRuns

/-- One submission of `submitPoints`, written as a single record update
(used to state its unfolding lemma). -/
def submitStep (m : SubmitMode) (x : Point) (st : RunState σ) : RunState σ :=
  { st with
      xs := st.xs ++ [(st.nextId, x)]
      nextId := st.nextId + 1
      events := st.events ++ [Event.submitTask m st.nextId x] }

/-! Structural lemmas about the state primitives. -/

@[simp] theorem emit_learner (st : RunState σ) (e : Event) : (emit st e).learner = st.learner := rfl

@[simp] theorem emit_xs (st : RunState σ) (e : Event) : (emit st e).xs = st.xs := rfl

@[simp] theorem emit_log (st : RunState σ) (e : Event) : (emit st e).log = st.log := rfl

@[simp] theorem emit_lastDone (st : RunState σ) (e : Event) : (emit st e).lastDone = st.lastDone := rfl

@[simp] theorem emit_events (st : RunState σ) (e : Event) : (emit st e).events = st.events ++ [e] := rfl

@[simp] theorem logAppend_learner (st : RunState σ) (e : LogEntry) :
    (logAppend st e).learner = st.learner := by
  cases h : st.log <;> simp [logAppend, h]

@[simp] theorem logAppend_xs (st : RunState σ) (e : LogEntry) :
    (logAppend st e).xs = st.xs := by
  cases h : st.log <;> simp [logAppend, h]

@[simp] theorem logAppend_lastDone (st : RunState σ) (e : LogEntry) :
    (logAppend st e).lastDone = st.lastDone := by
  cases h : st.log <;> simp [logAppend, h]

@[simp] theorem logAppend_events (st : RunState σ) (e : LogEntry) :
    (logAppend st e).events = st.events := by
  cases h : st.log <;> simp [logAppend, h]

theorem logAppend_some (st : RunState σ) (e : LogEntry) (l : List LogEntry)
    (h : st.log = some l) : (logAppend st e).log = some (l ++ [e]) := by
  simp [logAppend, h]

theorem submitPoints_cons (m : SubmitMode) (x : Point) (ps : List Point) (st : RunState σ) :
    submitPoints m (x :: ps) st = submitPoints m ps (submitStep m x st) := rfl

theorem submitPoints_learner (m : SubmitMode) (ps : List Point) :
    ∀ st : RunState σ, (submitPoints m ps st).learner = st.learner := by
  induction ps with
  | nil => intro st; rfl
  | cons x ps ih => intro st; rw [submitPoints_cons, ih]; rfl

theorem submitPoints_log (m : SubmitMode) (ps : List Point) :
    ∀ st : RunState σ, (submitPoints m ps st).log = st.log := by
  induction ps with
  | nil => intro st; rfl
  | cons x ps ih => intro st; rw [submitPoints_cons, ih]; rfl

theorem submitPoints_lastDone (m : SubmitMode) (ps : List Point) :
    ∀ st : RunState σ, (submitPoints m ps st).lastDone = st.lastDone := by
  induction ps with
  | nil => intro st; rfl
  | cons x ps ih => intro st; rw [submitPoints_cons, ih]; rfl

theorem submitPoints_xs_length (m : SubmitMode) (ps : List Point) :
    ∀ st : RunState σ, (submitPoints m ps st).xs.length = st.xs.length + ps.length := by
  induction ps with
  | nil => intro st; rfl
  | cons x ps ih =>
    intro st
    rw [submitPoints_cons, ih]
    simp [submitStep]
    omega

theorem submitPoints_events (m : SubmitMode) (ps : List Point) :
    ∀ st : RunState σ, ∃ t, (submitPoints m ps st).events = st.events ++ t
      ∧ ∀ e ∈ t, ∃ id x, e = Event.submitTask m id x := by
  induction ps with
  | nil => intro st; exact ⟨[], by simp [submitPoints], by simp⟩
  | cons x ps ih =>
    intro st
    rw [submitPoints_cons]
    obtain ⟨t, ht, hgood⟩ := ih (submitStep m x st)
    refine ⟨Event.submitTask m st.nextId x :: t, ?_, ?_⟩
    · rw [ht]; simp [submitStep]
    · intro e he
      rcases List.mem_cons.mp he with h | h
      · exact ⟨st.nextId, x, h⟩
      · exact hgood e h

/-! Lemmas about `processDone`. -/

theorem processDone_ok (E : LearnerOps σ) (f : Point → Except ε Value) :
    ∀ (ds : List (Nat × Point)) (st st' : RunState σ),
      processDone E f ds st = .ok st' →
      st'.xs = st.xs ∧ st'.lastDone = st.lastDone ∧
        ∃ t, st'.events = st.events ++ t
          ∧ ∀ e ∈ t, ∃ x y, e = Event.addPointCall x y ∧ f x = Except.ok y := by
  intro ds
  induction ds with
  | nil =>
    intro st st' h
    cases h
    exact ⟨rfl, rfl, [], by simp, by simp⟩
  | cons d ds ih =>
    intro st st' h
    obtain ⟨id, x⟩ := d
    simp only [processDone] at h
    cases hf : f x with
    | error e => rw [hf] at h; cases h
    | ok y =>
      rw [hf] at h
      obtain ⟨h1, h2, t, ht, hgood⟩ := ih _ _ h
      refine ⟨by rw [h1]; simp, by rw [h2]; simp, Event.addPointCall x y :: t, ?_, ?_⟩
      · rw [ht]; simp
      · intro e he
        rcases List.mem_cons.mp he with hh | hh
        · exact ⟨x, y, hh, hf⟩
        · exact hgood e hh

theorem processDone_err (E : LearnerOps σ) (f : Point → Except ε Value) :
    ∀ (ds : List (Nat × Point)) (st : RunState σ) (e : ε) (x : Point) (st' : RunState σ),
      processDone E f ds st = .error (e, x, st') →
      f x = .error e ∧ st'.lastDone = st.lastDone ∧
        (∃ suffix, st'.xs = st.xs ++ suffix) ∧
        ∃ t, st'.events = st.events ++ t
          ∧ ∀ ev ∈ t, ∃ x0 y0, ev = Event.addPointCall x0 y0 ∧ f x0 = Except.ok y0 := by
  intro ds
  induction ds with
  | nil => intro st e x st' h; cases h
  | cons d ds ih =>
    intro st e x st' h
    obtain ⟨id, x1⟩ := d
    simp only [processDone] at h
    cases hf : f x1 with
    | error e1 =>
      rw [hf] at h
      cases h
      exact ⟨hf, rfl, ⟨ds, rfl⟩, [], by simp, by simp⟩
    | ok y =>
      rw [hf] at h
      obtain ⟨h1, h2, ⟨suffix, hs⟩, t, ht, hgood⟩ := ih _ _ _ _ h
      refine ⟨h1, by rw [h2]; simp, ⟨suffix, by rw [hs]; simp⟩,
        Event.addPointCall x1 y :: t, ?_, ?_⟩
      · rw [ht]; simp
      · intro ev hev
        rcases List.mem_cons.mp hev with hh | hh
        · exact ⟨x1, y, hh, hf⟩
        · exact hgood ev hh

/-! Lemmas about the teardown. -/

theorem filter_length_split {α : Type} (p : α → Bool) (l : List α) :
    (l.filter p).length + (l.filter (fun a => !p a)).length = l.length := by
  induction l with
  | nil => rfl
  | cons a l ih =>
    by_cases h : p a = true
    · simp [List.filter_cons, h, Nat.succ_add, ih]
    · simp only [Bool.not_eq_true] at h
      simp [List.filter_cons, h, ← Nat.add_assoc, Nat.add_comm, ih]
      omega

theorem drain_spec (E : LearnerOps σ) (b : Bool) (st : RunState σ) :
    (drain E b st).events = st.events ++ drainTrace (st.xs.map Prod.fst) b
    ∧ (drain E b st).xs = st.xs
    ∧ (drain E b st).learner = E.remove_unfinished st.learner
    ∧ (drain E b st).log = st.log
    ∧ (drain E b st).lastDone = st.lastDone := by
  unfold drain drainTrace
  cases b <;> by_cases h : st.xs.length = 0 <;>
    simp [emit, h, List.map_map, Function.comp]

theorem submit_not_mem_drainTrace (md : SubmitMode) (id : Nat) (x : Point)
    (ids : List Nat) (b : Bool) : Event.submitTask md id x ∉ drainTrace ids b := by
  unfold drainTrace
  cases b <;> by_cases hl : ids.length = 0 <;> simp [hl, List.mem_map]

theorem choose_not_mem_drainTrace (r m : Nat) (ids : List Nat) (b : Bool) :
    Event.choosePointsCall r m ∉ drainTrace ids b := by
  unfold drainTrace
  cases b <;> by_cases hl : ids.length = 0 <;> simp [hl, List.mem_map]

theorem drainTrace_count_remove (ids : List Nat) (b : Bool) :
    (drainTrace ids b).count Event.removeUnfinishedCall = 1 := by
  unfold drainTrace
  cases b <;> by_cases hl : ids.length = 0 <;>
    simp [hl, List.count_append, List.count_cons, List.count_eq_zero, List.mem_map]

theorem shutdown_mem_drainTrace (ids : List Nat) (b : Bool) :
    Event.shutdownCall ∈ drainTrace ids b ↔ b = true := by
  unfold drainTrace
  cases b <;> by_cases hl : ids.length = 0 <;> simp [hl, List.mem_map]

theorem cancel_mem_drainTrace {id : Nat} {ids : List Nat} (b : Bool) (h : id ∈ ids) :
    Event.cancelFuture id ∈ drainTrace ids b := by
  have hl : ¬ids.length = 0 := by
    intro h0
    rw [List.length_eq_zero] at h0
    subst h0
    cases h
  unfold drainTrace
  cases b <;> simp [hl, List.mem_map] <;> tauto

theorem logOfEvents_append (a c : List Event) :
    logOfEvents (a ++ c) = logOfEvents a ++ logOfEvents c := by
  simp [logOfEvents]

theorem logOfEvents_drainTrace (ids : List Nat) (b : Bool) :
    logOfEvents (drainTrace ids b) = [] := by
  unfold drainTrace
  cases b <;> by_cases hl : ids.length = 0 <;>
    simp [hl, logOfEvents, eventLogEntry, List.filterMap_eq_nil_iff, List.mem_map]

/-! Shape lemmas for `GoodLoopEvent`. -/

theorem good_choose (L : LoopCfg) (f : Point → Except ε Value) (r m : Nat) :
    GoodLoopEvent L f (Event.choosePointsCall r m) := by
  refine ⟨rfl, ?_, ?_⟩
  · intro x y h
    cases h
  · intro md id x h
    cases h

theorem good_submit (L : LoopCfg) (f : Point → Except ε Value) (id : Nat) (x : Point) :
    GoodLoopEvent L f (Event.submitTask L.submitMode id x) := by
  refine ⟨rfl, ?_, ?_⟩
  · intro _ _ h; cases h
  · intro md id0 x0 h
    injection h with h1 h2 h3
    exact h1.symm

theorem good_add (L : LoopCfg) (f : Point → Except ε Value) (x : Point) (y : Value)
    (h : f x = Except.ok y) : GoodLoopEvent L f (Event.addPointCall x y) := by
  refine ⟨rfl, ?_, ?_⟩
  · intro x0 y0 hh
    injection hh with h1 h2
    subst h1; subst h2
    exact h
  · intro _ _ _ hh; cases hh

theorem good_of_submits {L : LoopCfg} {f : Point → Except ε Value} {t : List Event}
    (h : ∀ e ∈ t, ∃ id x, e = Event.submitTask L.submitMode id x) :
    ∀ e ∈ t, GoodLoopEvent L f e := by
  intro e he
  obtain ⟨id, x, rfl⟩ := h e he
  exact good_submit L f id x

theorem good_of_adds {L : LoopCfg} {f : Point → Except ε Value} {t : List Event}
    (h : ∀ e ∈ t, ∃ x y, e = Event.addPointCall x y ∧ f x = Except.ok y) :
    ∀ e ∈ t, GoodLoopEvent L f e := by
  intro e he
  obtain ⟨x, y, rfl, hf⟩ := h e he
  exact good_add L f x y hf

theorem GoodLoopEvent.ne_remove {L : LoopCfg} {f : Point → Except ε Value} {e : Event}
    (h : GoodLoopEvent L f e) : e ≠ Event.removeUnfinishedCall := by
  intro he
  subst he
  exact absurd h.1 (by decide)

theorem GoodLoopEvent.ne_shutdown {L : LoopCfg} {f : Point → Except ε Value} {e : Event}
    (h : GoodLoopEvent L f e) : e ≠ Event.shutdownCall := by
  intro he
  subst he
  exact absurd h.1 (by decide)

/-! Lemmas about `chooseAndSubmit`. -/

theorem chooseAndSubmit_eq (E : LearnerOps σ) (L : LoopCfg) (st : RunState σ) :
    chooseAndSubmit E L st =
      submitPoints L.submitMode (E.choose_points st.learner st.lastDone).1
        { st with
            log := (logAppend st (LogEntry.choose_points st.lastDone)).log
            learner := (E.choose_points st.learner st.lastDone).2
            events := st.events ++ [Event.choosePointsCall st.lastDone st.xs.length] } := by
  unfold chooseAndSubmit
  cases h : st.log <;> simp [logAppend, emit, h]

theorem chooseAndSubmit_lastDone (E : LearnerOps σ) (L : LoopCfg) (st : RunState σ) :
    (chooseAndSubmit E L st).lastDone = st.lastDone := by
  rw [chooseAndSubmit_eq, submitPoints_lastDone]

theorem chooseAndSubmit_learner (E : LearnerOps σ) (L : LoopCfg) (st : RunState σ) :
    (chooseAndSubmit E L st).learner = (E.choose_points st.learner st.lastDone).2 := by
  rw [chooseAndSubmit_eq, submitPoints_learner]

theorem chooseAndSubmit_log (E : LearnerOps σ) (L : LoopCfg) (st : RunState σ) :
    (chooseAndSubmit E L st).log = (logAppend st (LogEntry.choose_points st.lastDone)).log := by
  rw [chooseAndSubmit_eq, submitPoints_log]

theorem chooseAndSubmit_xs_length (E : LearnerOps σ) (L : LoopCfg) (st : RunState σ) :
    (chooseAndSubmit E L st).xs.length =
      st.xs.length + (E.choose_points st.learner st.lastDone).1.length := by
  rw [chooseAndSubmit_eq, submitPoints_xs_length]

theorem chooseAndSubmit_events (E : LearnerOps σ) (L : LoopCfg) (st : RunState σ) :
    ∃ t, (chooseAndSubmit E L st).events
        = st.events ++ Event.choosePointsCall st.lastDone st.xs.length :: t
      ∧ ∀ e ∈ t, ∃ id x, e = Event.submitTask L.submitMode id x := by
  rw [chooseAndSubmit_eq]
  obtain ⟨t, ht, hgood⟩ := submitPoints_events L.submitMode
    (E.choose_points st.learner st.lastDone).1
    { st with
        log := (logAppend st (LogEntry.choose_points st.lastDone)).log
        learner := (E.choose_points st.learner st.lastDone).2
        events := st.events ++ [Event.choosePointsCall st.lastDone st.xs.length] }
  refine ⟨t, ?_, hgood⟩
  rw [ht]
  simp

/-! The loop body only ever emits sound loop events. -/

theorem runLoop_events (E : LearnerOps σ) (goal : σ → Bool) (f : Point → Except ε Value)
    (sched : Nat → List Nat) (L : LoopCfg) :
    ∀ (fuel widx : Nat) (st : RunState σ),
      ∃ t, ((runLoop E goal f sched L fuel widx st).2).events = st.events ++ t
        ∧ ∀ e ∈ t, GoodLoopEvent L f e := by
  intro fuel
  induction fuel with
  | zero =>
    intro widx st
    exact ⟨[], by simp [runLoop], by simp⟩
  | succ fuel ih =>
    intro widx st
    by_cases hg : goal st.learner = true
    · exact ⟨[], by simp [runLoop, hg], by simp⟩
    · obtain ⟨tc, htc, hgc⟩ := chooseAndSubmit_events E L st
      have hgood_tc : ∀ e ∈ Event.choosePointsCall st.lastDone st.xs.length :: tc,
          GoodLoopEvent L f e := by
        intro e he
        rcases List.mem_cons.mp he with rfl | he2
        · exact good_choose L f _ _
        · exact good_of_submits hgc e he2
      by_cases hc : L.cancelAt = some widx
      · refine ⟨Event.choosePointsCall st.lastDone st.xs.length :: tc, ?_, hgood_tc⟩
        simp [runLoop, hg, hc, htc]
      · by_cases hx : (chooseAndSubmit E L st).xs.length = 0
        · by_cases ha : L.asyncMode = true
          · refine ⟨Event.choosePointsCall st.lastDone st.xs.length :: tc, ?_, hgood_tc⟩
            simp [runLoop, hg, hc, hx, ha, htc]
          · obtain ⟨t2, ht2, hg2⟩ := ih (widx + 1) { chooseAndSubmit E L st with lastDone := 0 }
            refine ⟨Event.choosePointsCall st.lastDone st.xs.length :: (tc ++ t2), ?_, ?_⟩
            · have : ((runLoop E goal f sched L (fuel + 1) widx st).2).events
                  = ((runLoop E goal f sched L fuel (widx + 1)
                      { chooseAndSubmit E L st with lastDone := 0 }).2).events := by
                simp [runLoop, hg, hc, hx, ha]
              rw [this, ht2]
              simp [htc]
            · intro e he
              rcases List.mem_cons.mp he with rfl | he2
              · exact good_choose L f _ _
              · rcases List.mem_append.mp he2 with h1 | h2
                · exact good_of_submits hgc e h1
                · exact hg2 e h2
        · by_cases hd0 : ((chooseAndSubmit E L st).xs.filter
              (fun p => decide (p.1 ∈ sched widx))).length = 0
          · refine ⟨Event.choosePointsCall st.lastDone st.xs.length :: tc, ?_, hgood_tc⟩
            simp [runLoop, hg, hc, hx, hd0, htc]
          · cases hpd : processDone E f
                ((chooseAndSubmit E L st).xs.filter (fun p => decide (p.1 ∈ sched widx)))
                { chooseAndSubmit E L st with
                    xs := (chooseAndSubmit E L st).xs.filter
                      (fun p => !decide (p.1 ∈ sched widx)) } with
            | error trip =>
              obtain ⟨e1, x1, st1⟩ := trip
              obtain ⟨hf1, hld1, hsuf1, t3, ht3, hgood3⟩ := processDone_err E f _ _ _ _ _ hpd
              refine ⟨Event.choosePointsCall st.lastDone st.xs.length :: (tc ++ t3), ?_, ?_⟩
              · have : ((runLoop E goal f sched L (fuel + 1) widx st).2).events = st1.events := by
                  simp [runLoop, hg, hc, hx, hd0, hpd]
                rw [this, ht3]
                simp [htc]
              · intro e he
                rcases List.mem_cons.mp he with rfl | he2
                · exact good_choose L f _ _
                · rcases List.mem_append.mp he2 with h1 | h2
                  · exact good_of_submits hgc e h1
                  · exact good_of_adds hgood3 e h2
            | ok st1 =>
              obtain ⟨hxs1, hld1, t3, ht3, hgood3⟩ := processDone_ok E f _ _ _ hpd
              obtain ⟨t4, ht4, hg4⟩ := ih (widx + 1)
                { st1 with
                    lastDone := ((chooseAndSubmit E L st).xs.filter
                      (fun p => decide (p.1 ∈ sched widx))).length }
              refine ⟨Event.choosePointsCall st.lastDone st.xs.length :: (tc ++ (t3 ++ t4)), ?_, ?_⟩
              · have : ((runLoop E goal f sched L (fuel + 1) widx st).2).events
                    = ((runLoop E goal f sched L fuel (widx + 1)
                        { st1 with
                            lastDone := ((chooseAndSubmit E L st).xs.filter
                              (fun p => decide (p.1 ∈ sched widx))).length }).2).events := by
                  simp [runLoop, hg, hc, hx, hd0, hpd]
                rw [this, ht4]
                simp only [RunState.events] at ht3 ⊢
                rw [ht3]
                simp [htc]
              · intro e he
                rcases List.mem_cons.mp he with rfl | he2
                · exact good_choose L f _ _
                · rcases List.mem_append.mp he2 with h1 | h2
                  · exact good_of_submits hgc e h1
                  · rcases List.mem_append.mp h2 with h3 | h4
                    · exact good_of_adds hgood3 e h3
                    · exact hg4 e h4

/-- A worker-exception exit of the loop really carries the evaluated
function's exception at the failed input. -/
theorem runLoop_workerErr (E : LearnerOps σ) (goal : σ → Bool) (f : Point → Except ε Value)
    (sched : Nat → List Nat) (L : LoopCfg) :
    ∀ (fuel widx : Nat) (st : RunState σ) (e : ε) (x : Point) (st' : RunState σ),
      runLoop E goal f sched L fuel widx st = (.workerRaised e x, st') →
      f x = .error e := by
  intro fuel
  induction fuel with
  | zero =>
    intro widx st e x st' h
    simp [runLoop] at h
  | succ fuel ih =>
    intro widx st e x st' h
    by_cases hg : goal st.learner = true
    · simp [runLoop, hg] at h
    · by_cases hc : L.cancelAt = some widx
      · simp [runLoop, hg, hc] at h
      · by_cases hx : (chooseAndSubmit E L st).xs.length = 0
        · by_cases ha : L.asyncMode = true
          · simp [runLoop, hg, hc, hx, ha] at h
          · have h' : runLoop E goal f sched L fuel (widx + 1)
                { chooseAndSubmit E L st with lastDone := 0 } = (.workerRaised e x, st') := by
              rw [← h]
              simp [runLoop, hg, hc, hx, ha]
            exact ih _ _ _ _ _ h'
        · by_cases hd0 : ((chooseAndSubmit E L st).xs.filter
              (fun p => decide (p.1 ∈ sched widx))).length = 0
          · simp [runLoop, hg, hc, hx, hd0] at h
          · cases hpd : processDone E f
                ((chooseAndSubmit E L st).xs.filter (fun p => decide (p.1 ∈ sched widx)))
                { chooseAndSubmit E L st with
                    xs := (chooseAndSubmit E L st).xs.filter
                      (fun p => !decide (p.1 ∈ sched widx)) } with
            | error trip =>
              obtain ⟨e1, x1, st1⟩ := trip
              simp only [runLoop, hg, hc, hx, hd0, hpd] at h
              simp [hg, hc, hx, hd0] at h
              obtain ⟨⟨he, hx1⟩, hst⟩ := h
              subst he
              subst hx1
              exact (processDone_err E f _ _ _ _ _ hpd).1
            | ok st1 =>
              have h' : runLoop E goal f sched L fuel (widx + 1)
                  { st1 with
                      lastDone := ((chooseAndSubmit E L st).xs.filter
                        (fun p => decide (p.1 ∈ sched widx))).length }
                    = (.workerRaised e x, st') := by
                rw [← h]
                simp [runLoop, hg, hc, hx, hd0, hpd]
              exact ih _ _ _ _ _ h'

/-- The loop state at start of `_run`: empty event trace. -/
theorem initState_events (c : RunnerCfg) (s0 : σ) : (initState c s0).events = [] := rfl

/-- Decomposition of any `_run` that left the `try` body: its event trace
is the loop body's trace followed by exactly the teardown trace for the
futures still outstanding at exit, and the loop part contains only sound
loop events. -/
theorem runnerRun_exit_decomp (c : RunnerCfg) (E : LearnerOps σ) (goal : σ → Bool)
    (f : Point → Except ε Value) (sched : Nat → List Nat) (L : LoopCfg)
    (fuel : Nat) (s0 : σ)
    (h : ((runnerRun c E goal f sched L fuel s0).1).exitsLoop = true) :
    ∃ pre,
      ((runnerRun c E goal f sched L fuel s0).2).events
        = pre ++ drainTrace (((runnerRun c E goal f sched L fuel s0).2).xs.map Prod.fst)
            (shutdownOnExit c)
      ∧ ∀ e ∈ pre, GoodLoopEvent L f e := by
  simp only [runnerRun] at h ⊢
  by_cases h0 : resolvedNtasks c = 0
  · simp [h0, Outcome.exitsLoop] at h
  · have hev := runLoop_events E goal f sched L fuel 0 (initState c s0)
    cases hrl : runLoop E goal f sched L fuel 0 (initState c s0) with
    | mk ex stL =>
      obtain ⟨t, ht, hgood⟩ := hev
      rw [initState_events] at ht
      simp only [List.nil_append] at ht
      rw [hrl] at h ht
      obtain ⟨hdev, hdxs, hdlearner, hdlog, hdld⟩ := drain_spec E (shutdownOnExit c) stL
      cases ex <;> simp [h0, Outcome.exitsLoop] at h ⊢ <;>
        exact ⟨stL.events, by rw [hdev, hdxs],
          by rw [show stL.events = t from ht]; exact hgood⟩

/-- Every submission event of a whole `_run` goes through the configured
submission route. -/
theorem runnerRun_submit_mode (c : RunnerCfg) (E : LearnerOps σ) (goal : σ → Bool)
    (f : Point → Except ε Value) (sched : Nat → List Nat) (L : LoopCfg)
    (fuel : Nat) (s0 : σ) :
    ∀ md id x, Event.submitTask md id x ∈ ((runnerRun c E goal f sched L fuel s0).2).events →
      md = L.submitMode := by
  intro md id x hmem
  simp only [runnerRun] at hmem
  by_cases h0 : resolvedNtasks c = 0
  · simp [h0, initState] at hmem
  · have hev := runLoop_events E goal f sched L fuel 0 (initState c s0)
    cases hrl : runLoop E goal f sched L fuel 0 (initState c s0) with
    | mk ex stL =>
      obtain ⟨t, ht, hgood⟩ := hev
      rw [initState_events] at ht
      simp only [List.nil_append] at ht
      rw [hrl] at hmem ht
      have hloop : Event.submitTask md id x ∈ stL.events → md = L.submitMode := by
        intro hin
        rw [show stL.events = t from ht] at hin
        exact ((hgood _ hin).2.2) md id x rfl
      obtain ⟨hdev, hdxs, hdlearner, hdlog, hdld⟩ := drain_spec E (shutdownOnExit c) stL
      cases ex <;> simp [h0] at hmem <;>
        first
        | exact hloop hmem
        | (rw [hdev] at hmem
           exact (List.mem_append.mp hmem).elim hloop
             (fun h2 => absurd h2 (submit_not_mem_drainTrace md id x _ _)))

/-! Log/replay synchronization: with logging on, `self.log` is exactly the
projection of the event trace to the logged operations, and replaying it
from the starting learner state reproduces the loop's learner state. -/

theorem replay_log_append (E : LearnerOps σ) (s : σ) (l1 l2 : List LogEntry) :
    replay_log E s (l1 ++ l2) = replay_log E (replay_log E s l1) l2 := by
  simp [replay_log, List.foldl_append]

theorem logOfEvents_of_submits {m : SubmitMode} {t : List Event}
    (h : ∀ e ∈ t, ∃ id x, e = Event.submitTask m id x) : logOfEvents t = [] := by
  refine List.filterMap_eq_nil_iff.mpr ?_
  intro e he
  obtain ⟨id, x, rfl⟩ := h e he
  rfl

theorem chooseAndSubmit_logsync (E : LearnerOps σ) (L : LoopCfg) (st : RunState σ)
    (h : st.log = some (logOfEvents st.events)) :
    (chooseAndSubmit E L st).log = some (logOfEvents (chooseAndSubmit E L st).events) := by
  obtain ⟨t, ht, hsub⟩ := chooseAndSubmit_events E L st
  rw [chooseAndSubmit_log, logAppend_some st _ _ h, ht]
  have : logOfEvents (st.events ++ Event.choosePointsCall st.lastDone st.xs.length :: t)
      = logOfEvents st.events ++ LogEntry.choose_points st.lastDone :: logOfEvents t := by
    simp [logOfEvents, eventLogEntry]
  rw [this, logOfEvents_of_submits hsub]

theorem chooseAndSubmit_replaysync (E : LearnerOps σ) (L : LoopCfg) (st : RunState σ) (s0 : σ)
    (h : replay_log E s0 (logOfEvents st.events) = st.learner) :
    replay_log E s0 (logOfEvents (chooseAndSubmit E L st).events)
      = (chooseAndSubmit E L st).learner := by
  obtain ⟨t, ht, hsub⟩ := chooseAndSubmit_events E L st
  rw [ht, chooseAndSubmit_learner]
  have h0 : logOfEvents t = [] := logOfEvents_of_submits hsub
  have he : logOfEvents (st.events ++ Event.choosePointsCall st.lastDone st.xs.length :: t)
      = logOfEvents st.events ++ [LogEntry.choose_points st.lastDone] := by
    rw [logOfEvents_append]
    have hcons : logOfEvents (Event.choosePointsCall st.lastDone st.xs.length :: t)
        = LogEntry.choose_points st.lastDone :: logOfEvents t := rfl
    rw [hcons, h0]
  rw [he, replay_log_append, h]
  rfl

theorem processDone_logreplay (E : LearnerOps σ) (f : Point → Except ε Value) (s0 : σ) :
    ∀ (ds : List (Nat × Point)) (st : RunState σ),
      st.log = some (logOfEvents st.events) →
      replay_log E s0 (logOfEvents st.events) = st.learner →
      (∀ st', processDone E f ds st = .ok st' →
          st'.log = some (logOfEvents st'.events)
          ∧ replay_log E s0 (logOfEvents st'.events) = st'.learner)
      ∧ (∀ e x st', processDone E f ds st = .error (e, x, st') →
          st'.log = some (logOfEvents st'.events)
          ∧ replay_log E s0 (logOfEvents st'.events) = st'.learner) := by
  intro ds
  induction ds with
  | nil =>
    intro st h1 h2
    constructor
    · intro st' h
      cases h
      exact ⟨h1, h2⟩
    · intro e x st' h
      cases h
  | cons d ds ih =>
    intro st h1 h2
    obtain ⟨id, x1⟩ := d
    have step : ∀ y, f x1 = Except.ok y →
        (let st2 : RunState σ :=
          { st with
              log := some (logOfEvents st.events ++ [LogEntry.add_point x1 y])
              learner := E.add_point st.learner x1 y
              events := st.events ++ [Event.addPointCall x1 y] }
         st2.log = some (logOfEvents st2.events)
         ∧ replay_log E s0 (logOfEvents st2.events) = st2.learner) := by
      intro y _
      constructor
      · simp [logOfEvents_append, logOfEvents, eventLogEntry]
      · have : logOfEvents (st.events ++ [Event.addPointCall x1 y])
            = logOfEvents st.events ++ [LogEntry.add_point x1 y] := by
          simp [logOfEvents, eventLogEntry]
        rw [this, replay_log_append, h2]
        rfl
    constructor
    · intro st' h
      simp only [processDone] at h
      cases hf : f x1 with
      | error e1 => rw [hf] at h; cases h
      | ok y =>
        rw [hf] at h
        obtain ⟨hy1, hy2⟩ := step y hf
        have heq : (logAppend st (LogEntry.add_point x1 y)).log
            = some (logOfEvents st.events ++ [LogEntry.add_point x1 y]) := by
          rw [logAppend_some st _ _ h1]
        have := (ih { st with
              log := some (logOfEvents st.events ++ [LogEntry.add_point x1 y])
              learner := E.add_point st.learner x1 y
              events := st.events ++ [Event.addPointCall x1 y] } hy1 hy2).1 st'
        apply this
        rw [← h]
        congr 1
        cases hl : st.log <;> simp [logAppend, emit, hl] <;> rw [hl] at h1 <;>
          simp at h1 <;> simp [h1]
    · intro e x st' h
      simp only [processDone] at h
      cases hf : f x1 with
      | error e1 =>
        rw [hf] at h
        cases h
        exact ⟨h1, h2⟩
      | ok y =>
        rw [hf] at h
        obtain ⟨hy1, hy2⟩ := step y hf
        have := (ih { st with
              log := some (logOfEvents st.events ++ [LogEntry.add_point x1 y])
              learner := E.add_point st.learner x1 y
              events := st.events ++ [Event.addPointCall x1 y] } hy1 hy2).2 e x st'
        apply this
        rw [← h]
        congr 1
        cases hl : st.log <;> simp [logAppend, emit, hl] <;> rw [hl] at h1 <;>
          simp at h1 <;> simp [h1]

/-- Through any number of loop iterations, the log stays the projection of
the event trace and replaying it reproduces the learner state. -/
theorem runLoop_logreplay (E : LearnerOps σ) (goal : σ → Bool) (f : Point → Except ε Value)
    (sched : Nat → List Nat) (L : LoopCfg) (s0 : σ) :
    ∀ (fuel widx : Nat) (st : RunState σ),
      st.log = some (logOfEvents st.events) →
      replay_log E s0 (logOfEvents st.events) = st.learner →
      ((runLoop E goal f sched L fuel widx st).2).log
          = some (logOfEvents ((runLoop E goal f sched L fuel widx st).2).events)
      ∧ replay_log E s0 (logOfEvents ((runLoop E goal f sched L fuel widx st).2).events)
          = ((runLoop E goal f sched L fuel widx st).2).learner := by
  intro fuel
  induction fuel with
  | zero =>
    intro widx st h1 h2
    simpa [runLoop] using ⟨h1, h2⟩
  | succ fuel ih =>
    intro widx st h1 h2
    by_cases hg : goal st.learner = true
    · simpa [runLoop, hg] using ⟨h1, h2⟩
    · have hcs1 := chooseAndSubmit_logsync E L st h1
      have hcs2 := chooseAndSubmit_replaysync E L st s0 h2
      by_cases hc : L.cancelAt = some widx
      · simpa [runLoop, hg, hc] using ⟨hcs1, hcs2⟩
      · by_cases hx : (chooseAndSubmit E L st).xs.length = 0
        · by_cases ha : L.asyncMode = true
          · simpa [runLoop, hg, hc, hx, ha] using ⟨hcs1, hcs2⟩
          · have hres : (runLoop E goal f sched L (fuel + 1) widx st).2
                = (runLoop E goal f sched L fuel (widx + 1)
                    { chooseAndSubmit E L st with lastDone := 0 }).2 := by
              simp [runLoop, hg, hc, hx, ha]
            rw [hres]
            exact ih (widx + 1) { chooseAndSubmit E L st with lastDone := 0 } hcs1 hcs2
        · by_cases hd0 : ((chooseAndSubmit E L st).xs.filter
              (fun p => decide (p.1 ∈ sched widx))).length = 0
          · simpa [runLoop, hg, hc, hx, hd0] using ⟨hcs1, hcs2⟩
          · have hpre : ({ chooseAndSubmit E L st with
                  xs := (chooseAndSubmit E L st).xs.filter
                    (fun p => !decide (p.1 ∈ sched widx)) } : RunState σ).log
                = some (logOfEvents ({ chooseAndSubmit E L st with
                    xs := (chooseAndSubmit E L st).xs.filter
                      (fun p => !decide (p.1 ∈ sched widx)) } : RunState σ).events) := hcs1
            have hpre2 : replay_log E s0 (logOfEvents ({ chooseAndSubmit E L st with
                    xs := (chooseAndSubmit E L st).xs.filter
                      (fun p => !decide (p.1 ∈ sched widx)) } : RunState σ).events)
                = ({ chooseAndSubmit E L st with
                    xs := (chooseAndSubmit E L st).xs.filter
                      (fun p => !decide (p.1 ∈ sched widx)) } : RunState σ).learner := hcs2
            have hpd0 := processDone_logreplay E f s0
              ((chooseAndSubmit E L st).xs.filter (fun p => decide (p.1 ∈ sched widx)))
              { chooseAndSubmit E L st with
                  xs := (chooseAndSubmit E L st).xs.filter
                    (fun p => !decide (p.1 ∈ sched widx)) } hpre hpre2
            cases hpd : processDone E f
                ((chooseAndSubmit E L st).xs.filter (fun p => decide (p.1 ∈ sched widx)))
                { chooseAndSubmit E L st with
                    xs := (chooseAndSubmit E L st).xs.filter
                      (fun p => !decide (p.1 ∈ sched widx)) } with
            | error trip =>
              obtain ⟨e1, x1, st1⟩ := trip
              obtain ⟨hs1, hs2⟩ := hpd0.2 e1 x1 st1 hpd
              have hres : (runLoop E goal f sched L (fuel + 1) widx st).2 = st1 := by
                simp [runLoop, hg, hc, hx, hd0, hpd]
              rw [hres]
              exact ⟨hs1, hs2⟩
            | ok st1 =>
              obtain ⟨hs1, hs2⟩ := hpd0.1 st1 hpd
              have hres : (runLoop E goal f sched L (fuel + 1) widx st).2
                  = (runLoop E goal f sched L fuel (widx + 1)
                      { st1 with
                          lastDone := ((chooseAndSubmit E L st).xs.filter
                            (fun p => decide (p.1 ∈ sched widx))).length }).2 := by
                simp [runLoop, hg, hc, hx, hd0, hpd]
              rw [hres]
              exact ih (widx + 1) _ hs1 hs2

/-- When the learner always supplies exactly as many points as requested,
every `choose_points` request observed in the loop satisfies
`requested + outstanding = N` (with `N` the target concurrency). -/
theorem runLoop_request (E : LearnerOps σ) (goal : σ → Bool) (f : Point → Except ε Value)
    (sched : Nat → List Nat) (L : LoopCfg) (N : Nat) (hN : 0 < N)
    (hFull : ∀ s n, (E.choose_points s n).1.length = n) :
    ∀ (fuel widx : Nat) (st : RunState σ),
      st.lastDone + st.xs.length = N →
      (∀ r m, Event.choosePointsCall r m ∈ st.events → r + m = N) →
      ∀ r m, Event.choosePointsCall r m ∈ ((runLoop E goal f sched L fuel widx st).2).events →
        r + m = N := by
  intro fuel
  induction fuel with
  | zero =>
    intro widx st hInv hPrev r m hm
    simp only [runLoop] at hm
    exact hPrev r m hm
  | succ fuel ih =>
    intro widx st hInv hPrev r m
    obtain ⟨tc, htc, hgc⟩ := chooseAndSubmit_events E L st
    have hPrevCS : ∀ r m, Event.choosePointsCall r m ∈ (chooseAndSubmit E L st).events →
        r + m = N := by
      intro r m hm
      rw [htc] at hm
      rcases List.mem_append.mp hm with hm1 | hm2
      · exact hPrev r m hm1
      · rcases List.mem_cons.mp hm2 with heq | hm3
        · injection heq with ha hb
          subst ha
          subst hb
          exact hInv
        · obtain ⟨id, x, hx⟩ := hgc _ hm3
          cases hx
    have hlenCS : (chooseAndSubmit E L st).xs.length = st.xs.length + st.lastDone := by
      rw [chooseAndSubmit_xs_length, hFull]
    by_cases hg : goal st.learner = true
    · intro hm
      simp only [runLoop, hg, if_true] at hm
      exact hPrev r m hm
    · by_cases hc : L.cancelAt = some widx
      · intro hm
        have hres : (runLoop E goal f sched L (fuel + 1) widx st).2 = chooseAndSubmit E L st := by
          simp [runLoop, hg, hc]
        rw [hres] at hm
        exact hPrevCS r m hm
      · by_cases hx : (chooseAndSubmit E L st).xs.length = 0
        · exfalso
          rw [hlenCS] at hx
          omega
        · by_cases hd0 : ((chooseAndSubmit E L st).xs.filter
              (fun p => decide (p.1 ∈ sched widx))).length = 0
          · intro hm
            have hres : (runLoop E goal f sched L (fuel + 1) widx st).2
                = chooseAndSubmit E L st := by
              simp [runLoop, hg, hc, hx, hd0]
            rw [hres] at hm
            exact hPrevCS r m hm
          · have hsplit : ((chooseAndSubmit E L st).xs.filter
                  (fun p => decide (p.1 ∈ sched widx))).length
                + ((chooseAndSubmit E L st).xs.filter
                  (fun p => !decide (p.1 ∈ sched widx))).length
                = (chooseAndSubmit E L st).xs.length :=
              filter_length_split _ _
            cases hpd : processDone E f
                ((chooseAndSubmit E L st).xs.filter (fun p => decide (p.1 ∈ sched widx)))
                { chooseAndSubmit E L st with
                    xs := (chooseAndSubmit E L st).xs.filter
                      (fun p => !decide (p.1 ∈ sched widx)) } with
            | error trip =>
              obtain ⟨e1, x1, st1⟩ := trip
              obtain ⟨hf1, hld1, hsuf1, t3, ht3, hgood3⟩ := processDone_err E f _ _ _ _ _ hpd
              intro hm
              have hres : (runLoop E goal f sched L (fuel + 1) widx st).2 = st1 := by
                simp [runLoop, hg, hc, hx, hd0, hpd]
              rw [hres, ht3] at hm
              rcases List.mem_append.mp hm with hm1 | hm2
              · exact hPrevCS r m hm1
              · obtain ⟨x0, y0, hx0, _⟩ := hgood3 _ hm2
                cases hx0
            | ok st1 =>
              obtain ⟨hxs1, hld1, t3, ht3, hgood3⟩ := processDone_ok E f _ _ _ hpd
              intro hm
              have hres : (runLoop E goal f sched L (fuel + 1) widx st).2
                  = (runLoop E goal f sched L fuel (widx + 1)
                      { st1 with
                          lastDone := ((chooseAndSubmit E L st).xs.filter
                            (fun p => decide (p.1 ∈ sched widx))).length }).2 := by
                simp [runLoop, hg, hc, hx, hd0, hpd]
              rw [hres] at hm
              refine ih (widx + 1) _ ?_ ?_ r m hm
              · have : st1.xs.length = ((chooseAndSubmit E L st).xs.filter
                    (fun p => !decide (p.1 ∈ sched widx))).length := by rw [hxs1]
                simp only [RunState.lastDone, RunState.xs] at this ⊢
                omega
              · intro r0 m0 hm0
                simp only [RunState.events] at hm0
                rw [ht3] at hm0
                rcases List.mem_append.mp hm0 with hm1 | hm2
                · exact hPrevCS r0 m0 hm1
                · obtain ⟨x0, y0, hx0, _⟩ := hgood3 _ hm2
                  cases hx0

/-- With a learner that never supplies points and a goal that never turns
true, the blocking loop neither raises nor terminates: `concurrent.wait` on
the empty set returns immediately and the `while` spins. -/
theorem runLoop_no_points (E : LearnerOps σ) (goal : σ → Bool) (f : Point → Except ε Value)
    (sched : Nat → List Nat) (L : LoopCfg)
    (h1 : ∀ s n, (E.choose_points s n).1 = [])
    (h2 : ∀ s, goal s = false)
    (hA : L.asyncMode = false) (hC : L.cancelAt = none) :
    ∀ (fuel widx : Nat) (st : RunState σ), st.xs = [] →
      (runLoop E goal f sched L fuel widx st).1 = .fuelExhausted := by
  intro fuel
  induction fuel with
  | zero =>
    intro widx st hxs
    simp [runLoop]
  | succ fuel ih =>
    intro widx st hxs
    have hcs : (chooseAndSubmit E L st).xs.length = 0 := by
      rw [chooseAndSubmit_xs_length, h1]
      simp [hxs]
    have hres : runLoop E goal f sched L (fuel + 1) widx st
        = runLoop E goal f sched L fuel (widx + 1)
            { chooseAndSubmit E L st with lastDone := 0 } := by
      simp [runLoop, h2 st.learner, hC, hcs, hA]
    rw [hres]
    apply ih
    simp only [RunState.xs]
    exact List.length_eq_zero.mp hcs

theorem addPoint_not_mem_drainTrace (x : Point) (y : Value) (ids : List Nat) (b : Bool) :
    Event.addPointCall x y ∉ drainTrace ids b := by
  unfold drainTrace
  cases b <;> by_cases hl : ids.length = 0 <;> simp [hl, List.mem_map]

theorem eventLogEntry_ne_remove {e : Event} (hg : e.isLoopEvent = true) :
    eventLogEntry e ≠ some LogEntry.remove_unfinished := by
  cases e <;> simp [Event.isLoopEvent] at hg ⊢ <;> simp [eventLogEntry]

/-- The teardown facts shared by several claims: on any exit of the loop,
`remove_unfinished` shows up exactly once in the trace, the pool is shut
down exactly when `shutdown_on_exit` holds, every still-outstanding future
receives a cancellation, and every absorbed result really came from a
successful evaluation. -/
theorem runnerRun_drain_facts (c : RunnerCfg) (E : LearnerOps σ) (goal : σ → Bool)
    (f : Point → Except ε Value) (sched : Nat → List Nat) (L : LoopCfg)
    (fuel : Nat) (s0 : σ)
    (h : ((runnerRun c E goal f sched L fuel s0).1).exitsLoop = true) :
    ((runnerRun c E goal f sched L fuel s0).2).events.count Event.removeUnfinishedCall = 1
    ∧ (Event.shutdownCall ∈ ((runnerRun c E goal f sched L fuel s0).2).events
        ↔ shutdownOnExit c = true)
    ∧ (∀ id ∈ ((runnerRun c E goal f sched L fuel s0).2).xs.map Prod.fst,
        Event.cancelFuture id ∈ ((runnerRun c E goal f sched L fuel s0).2).events)
    ∧ (∀ x y, Event.addPointCall x y ∈ ((runnerRun c E goal f sched L fuel s0).2).events →
        f x = Except.ok y) := by
  obtain ⟨pre, hev, hgood⟩ := runnerRun_exit_decomp c E goal f sched L fuel s0 h
  refine ⟨?_, ?_, ?_, ?_⟩
  · rw [hev, List.count_append, drainTrace_count_remove]
    have hz : pre.count Event.removeUnfinishedCall = 0 :=
      List.count_eq_zero.mpr (fun hmem => (hgood _ hmem).ne_remove rfl)
    rw [hz]
  · rw [hev]
    constructor
    · intro hmem
      rcases List.mem_append.mp hmem with h1 | h2
      · exact absurd rfl (hgood _ h1).ne_shutdown
      · exact (shutdown_mem_drainTrace _ _).mp h2
    · intro hb
      exact List.mem_append.mpr (Or.inr ((shutdown_mem_drainTrace _ _).mpr hb))
  · intro id hid
    rw [hev]
    exact List.mem_append.mpr (Or.inr (cancel_mem_drainTrace _ hid))
  · intro x y hmem
    rw [hev] at hmem
    rcases List.mem_append.mp hmem with h1 | h2
    · exact (hgood _ h1).2.1 x y rfl
    · exact absurd h2 (addPoint_not_mem_drainTrace x y _ _)

/-- A worker-failure outcome of a whole `_run` carries the evaluated
function's exception at the failed input. -/
theorem runnerRun_workerErr (c : RunnerCfg) (E : LearnerOps σ) (goal : σ → Bool)
    (f : Point → Except ε Value) (sched : Nat → List Nat) (L : LoopCfg)
    (fuel : Nat) (s0 : σ) (e : ε) (x : Point)
    (h : (runnerRun c E goal f sched L fuel s0).1 = .workerFailure e x) :
    f x = .error e := by
  simp only [runnerRun] at h
  by_cases h0 : resolvedNtasks c = 0
  · rw [if_pos h0] at h
    cases h
  · rw [if_neg h0] at h
    cases hrl : runLoop E goal f sched L fuel 0 (initState c s0) with
    | mk ex stL =>
      rw [hrl] at h
      cases ex with
      | goalReached => simp at h
      | cancelledAtWait => simp at h
      | emptyWaitValueError => simp at h
      | fuelExhausted => simp at h
      | blockedForever => simp at h
      | workerRaised ea xa =>
        simp at h
        obtain ⟨he, hx⟩ := h
        subst he
        subst hx
        exact runLoop_workerErr E goal f sched L fuel 0 (initState c s0) ea xa stL hrl

/-- A learner that never supplies a point combined with a never-true goal
makes the blocking `_run` spin forever (it never leaves the loop). -/
theorem runnerRun_no_points (c : RunnerCfg) (E : LearnerOps σ) (goal : σ → Bool)
    (f : Point → Except ε Value) (sched : Nat → List Nat) (s0 : σ)
    (h1 : ∀ s n, (E.choose_points s n).1 = [])
    (h2 : ∀ s, goal s = false)
    (hN : resolvedNtasks c ≠ 0) :
    ∀ fuel, (runnerRun c E goal f sched blockingLoopCfg fuel s0).1
      = Outcome.fuelExhausted := by
  intro fuel
  have hrl := runLoop_no_points E goal f sched blockingLoopCfg h1 h2 rfl rfl fuel 0
    (initState c s0) rfl
  simp only [runnerRun]
  rw [if_neg hN]
  cases hq : runLoop E goal f sched blockingLoopCfg fuel 0 (initState c s0) with
  | mk ex stL =>
    rw [hq] at hrl
    simp at hrl
    subst hrl
    simp

/-- With a learner that always returns the full number of requested points,
every observed request satisfies `requested + outstanding = ntasks`. -/
theorem runnerRun_request (c : RunnerCfg) (E : LearnerOps σ) (goal : σ → Bool)
    (f : Point → Except ε Value) (sched : Nat → List Nat) (L : LoopCfg)
    (fuel : Nat) (s0 : σ)
    (hFull : ∀ s n, (E.choose_points s n).1.length = n) :
    ∀ r m, Event.choosePointsCall r m ∈ ((runnerRun c E goal f sched L fuel s0).2).events →
      r + m = resolvedNtasks c := by
  intro r m hm
  simp only [runnerRun] at hm
  by_cases h0 : resolvedNtasks c = 0
  · rw [if_pos h0] at hm
    simp [initState] at hm
  · rw [if_neg h0] at hm
    have hstart1 : (initState c s0).lastDone + (initState c s0).xs.length
        = resolvedNtasks c := by
      simp [initState]
    have hstart2 : ∀ r0 m0, Event.choosePointsCall r0 m0 ∈ (initState c s0).events →
        r0 + m0 = resolvedNtasks c := by
      intro r0 m0 hmm
      simp [initState] at hmm
    have hloop := runLoop_request E goal f sched L (resolvedNtasks c)
      (Nat.pos_of_ne_zero h0) hFull fuel 0 (initState c s0) hstart1 hstart2
    cases hrl : runLoop E goal f sched L fuel 0 (initState c s0) with
    | mk ex stL =>
      rw [hrl] at hm hloop
      obtain ⟨hdev, hdxs, _⟩ := drain_spec E (shutdownOnExit c) stL
      cases ex <;> simp at hm <;>
        first
        | exact hloop r m hm
        | (rw [hdev] at hm
           exact (List.mem_append.mp hm).elim (fun hh => hloop r m hh)
             (fun hh => absurd hh (choose_not_mem_drainTrace r m _ _)))

/-! Claim theorems. -/

/-- C1: every run of the scheduling loop (blocking or cooperative), on
every exit path — goal-satisfied completion, a worker exception, the wait
primitive's error, or external cancellation — executes the teardown:
`remove_unfinished` is called exactly once, every still-outstanding future
is cancelled and then awaited (the trace ends with the teardown suffix
`drainTrace`), and the pool is shut down iff `shutdown_on_exit`; the
exceptional outcome is returned only together with the post-teardown
state. -/
theorem run_always_drains_on_exit (c : RunnerCfg) (E : LearnerOps σ) (goal : σ → Bool)
    (f : Point → Except ε Value) (sched : Nat → List Nat) (L : LoopCfg)
    (fuel : Nat) (s0 : σ)
    (h : ((runnerRun c E goal f sched L fuel s0).1).exitsLoop = true) :
    (∃ pre,
      ((runnerRun c E goal f sched L fuel s0).2).events
          = pre ++ drainTrace (((runnerRun c E goal f sched L fuel s0).2).xs.map Prod.fst)
              (shutdownOnExit c)
        ∧ ∀ e ∈ pre, GoodLoopEvent L f e)
    ∧ ((runnerRun c E goal f sched L fuel s0).2).events.count Event.removeUnfinishedCall = 1
    ∧ (Event.shutdownCall ∈ ((runnerRun c E goal f sched L fuel s0).2).events
        ↔ shutdownOnExit c = true)
    ∧ ∀ id ∈ ((runnerRun c E goal f sched L fuel s0).2).xs.map Prod.fst,
        Event.cancelFuture id ∈ ((runnerRun c E goal f sched L fuel s0).2).events := by
  obtain ⟨f1, f2, f3, _⟩ := runnerRun_drain_facts c E goal f sched L fuel s0 h
  exact ⟨runnerRun_exit_decomp c E goal f sched L fuel s0 h, f1, f2, f3⟩

/-- Witness for C1 at a concrete goal-reaching logged run. -/
theorem run_always_drains_on_exit_witness :
    (w1run.1).exitsLoop = true
    ∧ ((∃ pre,
          (w1run.2).events
              = pre ++ drainTrace ((w1run.2).xs.map Prod.fst) (shutdownOnExit cfgLog2)
            ∧ ∀ e ∈ pre, GoodLoopEvent blockingLoopCfg fId e)
        ∧ (w1run.2).events.count Event.removeUnfinishedCall = 1
        ∧ (Event.shutdownCall ∈ (w1run.2).events ↔ shutdownOnExit cfgLog2 = true)
        ∧ ∀ id ∈ (w1run.2).xs.map Prod.fst, Event.cancelFuture id ∈ (w1run.2).events) :=
  ⟨by decide,
    run_always_drains_on_exit cfgLog2 EFull goalAt3 fId schedAll blockingLoopCfg 10 0
      (by decide)⟩

/-- C2: a worker exception is propagated as the run's outcome (the very
exception the evaluated function raised, not retried), `add_point` is never
called for the failed input, and before the exception reaches the caller
the teardown runs: `remove_unfinished` once, all other outstanding futures
cancelled, and the pool shut down whenever it was internally created. -/
theorem worker_failure_propagates_after_teardown (c : RunnerCfg) (E : LearnerOps σ)
    (goal : σ → Bool) (f : Point → Except ε Value) (sched : Nat → List Nat) (L : LoopCfg)
    (fuel : Nat) (s0 : σ) (e : ε) (x : Point)
    (h : (runnerRun c E goal f sched L fuel s0).1 = Outcome.workerFailure e x) :
    f x = .error e
    ∧ (∀ y, Event.addPointCall x y ∉ ((runnerRun c E goal f sched L fuel s0).2).events)
    ∧ (∃ pre,
        ((runnerRun c E goal f sched L fuel s0).2).events
            = pre ++ drainTrace (((runnerRun c E goal f sched L fuel s0).2).xs.map Prod.fst)
                (shutdownOnExit c)
          ∧ ∀ ev ∈ pre, GoodLoopEvent L f ev)
    ∧ ((runnerRun c E goal f sched L fuel s0).2).events.count Event.removeUnfinishedCall = 1
    ∧ (∀ id ∈ ((runnerRun c E goal f sched L fuel s0).2).xs.map Prod.fst,
        Event.cancelFuture id ∈ ((runnerRun c E goal f sched L fuel s0).2).events)
    ∧ (c.executorProvided = false →
        Event.shutdownCall ∈ ((runnerRun c E goal f sched L fuel s0).2).events) := by
  have hexit : ((runnerRun c E goal f sched L fuel s0).1).exitsLoop = true := by
    rw [h]
    rfl
  have hferr := runnerRun_workerErr c E goal f sched L fuel s0 e x h
  obtain ⟨f1, f2, f3, f4⟩ := runnerRun_drain_facts c E goal f sched L fuel s0 hexit
  refine ⟨hferr, ?_, runnerRun_exit_decomp c E goal f sched L fuel s0 hexit, f1, f3, ?_⟩
  · intro y hmem
    have hok := f4 x y hmem
    rw [hferr] at hok
    cases hok
  · intro hprov
    apply f2.mpr
    simp [shutdownOnExit, hprov]

/-- Witness for C2 at a concrete run whose first completed future raised. -/
theorem worker_failure_propagates_after_teardown_witness :
    w2run.1 = Outcome.workerFailure () 0
    ∧ (fFailZero 0 = .error ()
        ∧ (∀ y, Event.addPointCall 0 y ∉ (w2run.2).events)
        ∧ (∃ pre,
            (w2run.2).events
                = pre ++ drainTrace ((w2run.2).xs.map Prod.fst) (shutdownOnExit cfgLog2)
              ∧ ∀ ev ∈ pre, GoodLoopEvent blockingLoopCfg fFailZero ev)
        ∧ (w2run.2).events.count Event.removeUnfinishedCall = 1
        ∧ (∀ id ∈ (w2run.2).xs.map Prod.fst, Event.cancelFuture id ∈ (w2run.2).events)
        ∧ (cfgLog2.executorProvided = false → Event.shutdownCall ∈ (w2run.2).events)) :=
  ⟨by decide,
    worker_failure_propagates_after_teardown cfgLog2 ETwo goalAt3 fFailZero schedZeroOnly
      blockingLoopCfg 10 0 () 0 (by decide)⟩

/-- C7: the resolved shutdown decision is exactly
`explicit flag OR executor created internally`, and at teardown the pool is
shut down exactly under that condition. -/
theorem shutdown_iff_flag_or_internal (c : RunnerCfg) (E : LearnerOps σ) (goal : σ → Bool)
    (f : Point → Except ε Value) (sched : Nat → List Nat) (L : LoopCfg)
    (fuel : Nat) (s0 : σ)
    (h : ((runnerRun c E goal f sched L fuel s0).1).exitsLoop = true) :
    shutdownOnExit c = (c.shutdown_executor || !c.executorProvided)
    ∧ (Event.shutdownCall ∈ ((runnerRun c E goal f sched L fuel s0).2).events
        ↔ (c.shutdown_executor = true ∨ c.executorProvided = false)) := by
  refine ⟨rfl, ?_⟩
  obtain ⟨_, f2, _, _⟩ := runnerRun_drain_facts c E goal f sched L fuel s0 h
  rw [f2]
  simp [shutdownOnExit]

/-- Witness for C7 at a concrete run on an internally created executor with
the explicit flag off. -/
theorem shutdown_iff_flag_or_internal_witness :
    (w7run.1).exitsLoop = true
    ∧ (shutdownOnExit cfgInternal = (cfgInternal.shutdown_executor || !cfgInternal.executorProvided)
        ∧ (Event.shutdownCall ∈ (w7run.2).events
            ↔ (cfgInternal.shutdown_executor = true ∨ cfgInternal.executorProvided = false))) :=
  ⟨by decide,
    shutdown_iff_flag_or_internal cfgInternal EFull goalNow fId schedAll blockingLoopCfg 3 0
      (by decide)⟩

/-- C3 counterexample: the loop requests `len(done)` new points, not
`ntasks - |outstanding|`.  With `ntasks = 2` and a learner that supplies
only one point per request, the second request asks for `1` point while the
outstanding map is empty, so the claimed count would be `2`. -/
theorem choose_points_request_cex :
    resolvedNtasks cfgLog2 = 2
    ∧ Event.choosePointsCall 1 0 ∈ (c3run.2).events
    ∧ (1 : Nat) ≠ resolvedNtasks cfgLog2 - 0 := by decide

/-- C3 (amended): provided the oracle has always returned exactly as many
points as requested, every observed `choose_points` request equals
`ntasks` minus the size of the outstanding map (so `ntasks` on the first
step); without that proviso the request is the size of the previous
completed set and can fall short of restoring `ntasks` in flight. -/
theorem choose_points_request_amended (c : RunnerCfg) (E : LearnerOps σ) (goal : σ → Bool)
    (f : Point → Except ε Value) (sched : Nat → List Nat) (L : LoopCfg)
    (fuel : Nat) (s0 : σ)
    (hFull : ∀ s n, (E.choose_points s n).1.length = n) :
    ∀ r m, Event.choosePointsCall r m ∈ ((runnerRun c E goal f sched L fuel s0).2).events →
      r = resolvedNtasks c - m ∧ m ≤ resolvedNtasks c := by
  intro r m hm
  have hrm := runnerRun_request c E goal f sched L fuel s0 hFull r m hm
  omega

/-- Witness for the amended C3 at a full-supply learner: the first request
asks for all of `ntasks = 2` with nothing outstanding. -/
theorem choose_points_request_amended_witness :
    (∀ (s n : Nat), (EFull.choose_points s n).1.length = n)
    ∧ Event.choosePointsCall 2 0 ∈ (w1run.2).events
    ∧ (2 = resolvedNtasks cfgLog2 - 0 ∧ 0 ≤ resolvedNtasks cfgLog2) :=
  ⟨fun s n => by simp [EFull], by decide,
    choose_points_request_amended cfgLog2 EFull goalAt3 fId schedAll blockingLoopCfg 10 0
      (fun s n => by simp [EFull]) 2 0 (by decide)⟩

/-- C4 counterexample: passing `ntasks = 0` does not resolve to zero —
Python's `ntasks or _get_ncores(executor)` treats `0` as absent and falls
back to the executor capacity, so with a capacity-1 executor the run
proceeds normally and no error is raised. -/
theorem ntasks_zero_cex :
    cfgZero.ntasksArg = some 0
    ∧ resolvedNtasks cfgZero = 1
    ∧ c4run.1 = Outcome.goalReached
    ∧ c4run.1 ≠ Outcome.noWorkersError := by decide

/-- C4 (amended): the `RuntimeError('Executor has no workers')` is raised
exactly when the resolved concurrency (explicit nonzero `ntasks`, else the
executor capacity) is zero; it is raised before the `try`, so with no
submission, no learner mutation, no teardown, and no pool shutdown (the
returned state is the untouched initial state with an empty trace). -/
theorem no_workers_amended (c : RunnerCfg) (E : LearnerOps σ) (goal : σ → Bool)
    (f : Point → Except ε Value) (sched : Nat → List Nat) (L : LoopCfg)
    (fuel : Nat) (s0 : σ)
    (h : resolvedNtasks c = 0) :
    runnerRun c E goal f sched L fuel s0 = (Outcome.noWorkersError, initState c s0)
    ∧ (initState c s0).events = []
    ∧ (initState c s0).learner = s0
    ∧ (initState c s0).xs = [] := by
  refine ⟨?_, rfl, rfl, rfl⟩
  simp [runnerRun, h]

/-- Witness for the amended C4 at an executor whose capacity is zero. -/
theorem no_workers_amended_witness :
    resolvedNtasks cfgCap0 = 0
    ∧ (w4run = (Outcome.noWorkersError, initState cfgCap0 0)
        ∧ (initState cfgCap0 (0 : Nat)).events = []
        ∧ (initState cfgCap0 (0 : Nat)).learner = 0
        ∧ (initState cfgCap0 (0 : Nat)).xs = []) :=
  ⟨by decide,
    no_workers_amended cfgCap0 EFull goalNow fId schedAll blockingLoopCfg 3 0 (by decide)⟩

/-- C5 counterexample: with an oracle that returns no points while the
goal stays false and nothing is outstanding, the blocking loop neither
fails nor terminates — for every iteration bound it is still spinning
(`concurrent.wait` on the empty set returns immediately); no `NoProgress`
error is raised, because none exists in the code. -/
theorem no_points_never_exits_cex :
    neverExitsBlocking cfgOne ENone goalNever fId schedAll () :=
  runnerRun_no_points cfgOne ENone goalNever fId schedAll ()
    (fun _ _ => rfl) (fun _ => rfl) (by decide)

/-- C5 (amended): whenever `choose_points` returns no points on every
state and the goal predicate never turns true, the blocking run busy-loops
forever: it re-enters the `while`, logs and calls `choose_points` again,
waits on an empty future set (which returns at once) and repeats — it
neither deadlocks on a wait nor surfaces any error to the caller. -/
theorem no_points_spins_forever_amended (c : RunnerCfg) (E : LearnerOps σ)
    (goal : σ → Bool) (f : Point → Except ε Value) (sched : Nat → List Nat) (s0 : σ)
    (h1 : ∀ s n, (E.choose_points s n).1 = [])
    (h2 : ∀ s, goal s = false)
    (hN : resolvedNtasks c ≠ 0) :
    neverExitsBlocking c E goal f sched s0 :=
  runnerRun_no_points c E goal f sched s0 h1 h2 hN

/-- Witness for the amended C5: the hypotheses hold for the no-point
learner, and after four loop iterations the run is still inside the loop. -/
theorem no_points_spins_forever_amended_witness :
    (∀ (s : Unit) (n : Nat), (ENone.choose_points s n).1 = [])
    ∧ resolvedNtasks cfgOne ≠ 0
    ∧ (runnerRun cfgOne ENone goalNever fId schedAll blockingLoopCfg 4 ()).1
        = Outcome.fuelExhausted :=
  ⟨fun _ _ => rfl, by decide,
    no_points_spins_forever_amended cfgOne ENone goalNever fId schedAll ()
      (fun _ _ => rfl) (fun _ => rfl) (by decide) 4⟩

/-- C6 counterexample: `remove_unfinished` is invoked by the teardown
(exactly once) but never logged, so replay of the captured log does not
reproduce its effect: here the log is empty while the learner state was
visibly changed by `remove_unfinished`. -/
theorem log_misses_remove_unfinished_cex :
    (c6run.2).events.count Event.removeUnfinishedCall = 1
    ∧ (c6run.2).log = some []
    ∧ replay_log EMark 0 [] ≠ (c6run.2).learner := by decide

/-- C6 (amended): with logging enabled, `choose_points` and `add_point`
invocations each append exactly one entry, in invocation order (the final
log is the projection of the event trace to those two operations), and
replaying the log on a fresh oracle reproduces exactly the loop-exit
oracle state — the final state differs from it only by the one unlogged
`remove_unfinished` applied during teardown. -/
theorem log_records_and_replays_amended (c : RunnerCfg) (E : LearnerOps σ)
    (goal : σ → Bool) (f : Point → Except ε Value) (sched : Nat → List Nat) (L : LoopCfg)
    (fuel : Nat) (s0 : σ)
    (hlog : c.logEnabled = true)
    (hexit : ((runnerRun c E goal f sched L fuel s0).1).exitsLoop = true) :
    ∃ l, ((runnerRun c E goal f sched L fuel s0).2).log = some l
      ∧ l = logOfEvents ((runnerRun c E goal f sched L fuel s0).2).events
      ∧ ((runnerRun c E goal f sched L fuel s0).2).learner
          = E.remove_unfinished (replay_log E s0 l)
      ∧ LogEntry.remove_unfinished ∉ l
      ∧ ((runnerRun c E goal f sched L fuel s0).2).events.count
          Event.removeUnfinishedCall = 1 := by
  have h0 : resolvedNtasks c ≠ 0 := by
    intro hz
    have hout : (runnerRun c E goal f sched L fuel s0).1 = Outcome.noWorkersError := by
      simp [runnerRun, hz]
    rw [hout] at hexit
    simp [Outcome.exitsLoop] at hexit
  have hs1 : (initState c s0).log = some (logOfEvents (initState c s0).events) := by
    simp [initState, hlog, logOfEvents]
  have hs2 : replay_log E s0 (logOfEvents (initState c s0).events)
      = (initState c s0).learner := by
    simp [initState, logOfEvents, replay_log]
  have hlr := runLoop_logreplay E goal f sched L s0 fuel 0 (initState c s0) hs1 hs2
  have hev := runLoop_events E goal f sched L fuel 0 (initState c s0)
  simp only [runnerRun] at hexit ⊢
  rw [if_neg h0] at hexit ⊢
  cases hrl : runLoop E goal f sched L fuel 0 (initState c s0) with
  | mk ex stL =>
    rw [hrl] at hexit hlr hev
    obtain ⟨hL1, hL2⟩ := hlr
    obtain ⟨t, ht, hgood⟩ := hev
    rw [initState_events] at ht
    simp only [List.nil_append] at ht
    obtain ⟨hdev, hdxs, hdlearner, hdlog, _⟩ := drain_spec E (shutdownOnExit c) stL
    have hcount : (drain E (shutdownOnExit c) stL).events.count
        Event.removeUnfinishedCall = 1 := by
      rw [hdev, List.count_append, drainTrace_count_remove]
      have hz : stL.events.count Event.removeUnfinishedCall = 0 := by
        refine List.count_eq_zero.mpr ?_
        intro hmem
        rw [ht] at hmem
        exact (hgood _ hmem).ne_remove rfl
      rw [hz]
    have hlogeq : logOfEvents (drain E (shutdownOnExit c) stL).events
        = logOfEvents stL.events := by
      rw [hdev, logOfEvents_append, logOfEvents_drainTrace]
      simp
    have hnotmem : LogEntry.remove_unfinished ∉ logOfEvents stL.events := by
      intro hmem
      unfold logOfEvents at hmem
      obtain ⟨ev, hev2, hevEq⟩ := List.mem_filterMap.mp hmem
      rw [ht] at hev2
      exact eventLogEntry_ne_remove (hgood _ hev2).1 hevEq
    cases ex
    case fuelExhausted => simp [Outcome.exitsLoop] at hexit
    case blockedForever => simp [Outcome.exitsLoop] at hexit
    all_goals (
      refine ⟨logOfEvents stL.events, ?_, ?_, ?_, hnotmem, ?_⟩
      · show (drain E (shutdownOnExit c) stL).log = some (logOfEvents stL.events)
        rw [hdlog]
        exact hL1
      · show logOfEvents stL.events = logOfEvents (drain E (shutdownOnExit c) stL).events
        rw [hlogeq]
      · show (drain E (shutdownOnExit c) stL).learner
            = E.remove_unfinished (replay_log E s0 (logOfEvents stL.events))
        rw [hdlearner]
        exact (congrArg E.remove_unfinished hL2).symm
      · show (drain E (shutdownOnExit c) stL).events.count Event.removeUnfinishedCall = 1
        exact hcount)

/-- Witness for the amended C6 at a concrete logged goal-reaching run. -/
theorem log_records_and_replays_amended_witness :
    cfgLog2.logEnabled = true
    ∧ (w1run.1).exitsLoop = true
    ∧ ∃ l, (w1run.2).log = some l
        ∧ l = logOfEvents (w1run.2).events
        ∧ (w1run.2).learner = EFull.remove_unfinished (replay_log EFull 0 l)
        ∧ LogEntry.remove_unfinished ∉ l
        ∧ (w1run.2).events.count Event.removeUnfinishedCall = 1 :=
  ⟨rfl, by decide,
    log_records_and_replays_amended cfgLog2 EFull goalAt3 fId schedAll blockingLoopCfg 10 0
      rfl (by decide)⟩

/-- C8: constructing the cooperative runner for a coroutine evaluation
function together with a caller-supplied pool fails with the
configuration error (`RuntimeError`, the spec's `ConflictingExecutionMode`);
without a pool, `_submit` is set up to schedule directly on the event loop
(shutting the internally created pool at construction), and no run in that
mode ever submits an evaluation through the executor. -/
theorem async_coroutine_executor_conflict :
    asyncSubmitSetup true true = .error .conflictingExecutionMode
    ∧ asyncSubmitSetup true false = .ok (.directOnLoop, [.constructionShutdown])
    ∧ asyncSubmitSetup false true = .ok (.viaExecutor, [])
    ∧ ∀ (τ ρ : Type) (c : RunnerCfg) (E : LearnerOps τ) (goal : τ → Bool)
        (f : Point → Except ρ Value) (sched : Nat → List Nat) (cancelAt : Option Nat)
        (fuel : Nat) (s0 : τ) (id : Nat) (x : Point),
        Event.submitTask .viaExecutor id x
          ∉ ((runnerRun c E goal f sched (asyncLoopCfg cancelAt .directOnLoop)
              fuel s0).2).events := by
  refine ⟨rfl, rfl, rfl, ?_⟩
  intro τ ρ c E goal f sched cancelAt fuel s0 id x hmem
  have hmode := runnerRun_submit_mode c E goal f sched (asyncLoopCfg cancelAt .directOnLoop)
    fuel s0 SubmitMode.viaExecutor id x hmem
  simp [asyncLoopCfg] at hmode

/-- Witness for C8: the conflicting construction errors, and a concrete
direct-on-loop run contains no executor submission. -/
theorem async_coroutine_executor_conflict_witness :
    asyncSubmitSetup true true = .error .conflictingExecutionMode
    ∧ Event.submitTask SubmitMode.viaExecutor 0 0
        ∉ ((runnerRun cfgOne EFull goalNow fId schedAll (asyncLoopCfg none .directOnLoop)
            3 0).2).events :=
  ⟨async_coroutine_executor_conflict.1,
    async_coroutine_executor_conflict.2.2.2 Nat Unit cfgOne EFull goalNow fId schedAll
      none 3 0 0 0⟩

/-- C9: the trivial synchronous pool executes submitted work immediately on
the calling thread and hands back an already-resolved future holding the
function's result or its captured exception (`submit` itself never raises),
its reported capacity is `1`, and its `shutdown` is a no-op, hence
idempotent: any positive number of calls equals one call. -/
theorem sequential_executor_contract (ee : Type) :
    (∀ (α β : Type) (f : α → Except ee β) (x : α),
        (SequentialExecutor.submit f x).isResolved = true
        ∧ (SequentialExecutor.submit f x).resultNow = some (f x))
    ∧ _get_ncores ExecutorKind.sequentialExecutor = some 1
    ∧ (∀ (α : Type) (w : Bool) (s : α) (n : Nat), 1 ≤ n →
        (SequentialExecutor.shutdown w)^[n] s = SequentialExecutor.shutdown w s) := by
  refine ⟨?_, rfl, ?_⟩
  · intro α β f x
    constructor
    · unfold SequentialExecutor.submit
      cases f x <;> rfl
    · unfold SequentialExecutor.submit
      cases hf : f x <;>
        simp [SeqFuture.set_result, SeqFuture.set_exception, SeqFuture.resultNow]
  · intro α w s n _
    have hfix : SequentialExecutor.shutdown w s = s := rfl
    rw [Function.iterate_fixed hfix n]
    exact hfix.symm

/-- Witness for C9: two shutdowns equal one, and a concrete submission is
already resolved with the function's outcome. -/
theorem sequential_executor_contract_witness :
    1 ≤ 2
    ∧ (SequentialExecutor.shutdown true)^[2] (5 : Nat) = SequentialExecutor.shutdown true (5 : Nat)
    ∧ (SequentialExecutor.submit
        (fun z : Int => (Except.ok (z + 1) : Except Unit Int)) 3).isResolved = true :=
  ⟨by decide, (sequential_executor_contract Unit).2.2 Nat true 5 2 (by decide),
    ((sequential_executor_contract Unit).1 Int Int
      (fun z => (Except.ok (z + 1) : Except Unit Int)) 3).1⟩

/-- C10: constructing the blocking runner on a coroutine evaluation
function raises the `ValueError` before `super().__init__` runs: no pool
is resolved or created, no capacity is queried, and no run (hence no
submission) happens — the result is the bare error with an empty
construction-effect list. -/
theorem blocking_runner_rejects_coroutine (isCoroutineFn : Bool) (c : RunnerCfg)
    (E : LearnerOps σ) (goal : σ → Bool) (f : Point → Except ε Value)
    (sched : Nat → List Nat) (fuel : Nat) (s0 : σ)
    (h : isCoroutineFn = true) :
    blockingRunnerNew isCoroutineFn c E goal f sched fuel s0
      = (Except.error RunnerError.coroutineNeedsAsyncRunner, ([] : List InitEvent)) := by
  subst h
  rfl

/-- Witness for C10 at concrete construction arguments. -/
theorem blocking_runner_rejects_coroutine_witness :
    blockingRunnerNew true cfgLog2 EFull goalAt3 fId schedAll 3 0
      = (Except.error RunnerError.coroutineNeedsAsyncRunner, ([] : List InitEvent)) :=
  blocking_runner_rejects_coroutine true cfgLog2 EFull goalAt3 fId schedAll 3 0 rfl

end Adaptive
